import Mathlib

/-!
Formal model of the storefront crawling-and-indexing pipeline of the
`shopify-ai-assistant` repository (backend sources `crawler.js`,
`scraper.js`, `indexer.js`, `storage.js`, `index.js`).

Embedding conventions:

* JS strings are Lean `String`s restricted to ASCII content; the JS
  string operations the code uses (`toLowerCase`, `trim`, `slice`,
  collapsing whitespace runs, regex character classes) are
  re-implemented character-wise below.
* URL strings are represented structurally (`UrlStr`: scheme, host,
  pathname, fragment).  For the well-formed URLs the crawler
  manipulates, string equality of serialized URLs coincides with
  structural equality, and the string-level operations of
  `normalizeUrl` (fragment stripping, trailing-slash removal) become
  structural operations on the pathname.
* `crawlSite`'s event-loop concurrency is modelled as a small-step
  machine: a JS `async` worker runs synchronously between `await`
  points, so each synchronous segment is one atomic step, and a
  schedule (a list of events) fixes the interleaving.  Network results
  are oracles (functions from URL to result) passed as parameters.
* The JSON round trip performed by the snapshot store
  (`JSON.stringify` on write, `JSON.parse` on read) is the identity on
  the JSON-representable values modelled by `JVal`, so the store keeps
  the structured object directly.
-/

/-! ### JS string primitives (ASCII model) -/

/-- One character of the JS whitespace class `\s` (ASCII part). -/
def isWsChar (c : Char) : Bool :=
  c = ' ' || c = '\t' || c = '\n' || c = '\r' || c = '\x0b' || c = '\x0c'

/-- Lowercase alphanumeric characters, the class `[a-z0-9]`. -/
def isTokChar (c : Char) : Bool :=
  ('a' ≤ c && c ≤ 'z') || ('0' ≤ c && c ≤ '9')

/-- `String.prototype.toLowerCase` on one ASCII character. -/
def lowerChar (c : Char) : Char :=
  if 'A' ≤ c ∧ c ≤ 'Z' then Char.ofNat (c.toNat + 32) else c

/-- `s.toLowerCase()` (ASCII model). -/
def jsToLower (s : String) : String := String.mk (s.data.map lowerChar)

def trimChars (l : List Char) : List Char :=
  ((l.dropWhile isWsChar).reverse.dropWhile isWsChar).reverse

/-- `s.trim()` (ASCII whitespace model). -/
def jsTrim (s : String) : String := String.mk (trimChars s.data)

/-- `s.slice(0, n)`. -/
def jsSliceTo (n : Nat) (s : String) : String := String.mk (s.data.take n)

/-- The replacement step `replace(/[^a-z0-9\s]/g, ' ')` of
`indexer.js:6`, applied to one character of the lowercased input. -/
def replaceNonToken (c : Char) : Char :=
  if isTokChar c || isWsChar c then c else ' '

/-- Splitting a character list on runs of whitespace, dropping empty
pieces: the combination of `.split(/\s+/).filter(Boolean)` used at
`indexer.js:7-8` (a leading whitespace run yields an empty string that
`filter(Boolean)` removes, which this function never emits). -/
def splitWsAux : List Char → List Char → List (List Char)
  | [], acc => if acc = [] then [] else [acc.reverse]
  | c :: cs, acc =>
    if isWsChar c then
      (if acc = [] then splitWsAux cs [] else acc.reverse :: splitWsAux cs [])
    else splitWsAux cs (c :: acc)

/-- `replace(/\s+/g, ' ').trim()` as used on extracted text
(`scraper.js:70`, `scraper.js:99`): whitespace runs collapse to single
spaces and outer whitespace disappears. -/
def jsCollapseWs (s : String) : String :=
  String.intercalate " " ((splitWsAux s.data []).map String.mk)

/-! ### Indexer (`indexer.js`) -/

/-- `tokenize` (`indexer.js:3-10`): lowercase, replace every character
outside `[a-z0-9\s]` with a space, split on whitespace, drop empty
tokens and tokens of length at most 2. -/
def tokenize (s : String) : List String :=
  ((splitWsAux ((s.data.map lowerChar).map replaceNonToken) []).map String.mk).filter
    (fun t => 2 < t.length)

/-- Structured URL string; see the header comment. -/
structure UrlStr where
  scheme : String
  host : String
  pathname : String
  hash : String
deriving DecidableEq

/-- Serialized form of a `UrlStr`, as produced by `URL.prototype.toString`. -/
def urlToString (u : UrlStr) : String :=
  u.scheme ++ "://" ++ u.host ++ u.pathname ++ u.hash

/-- A per-page record as built by `crawlSite` (`crawler.js:109-115`).
The object literal has exactly these five fields; in particular there
is no `error` field. -/
structure Page where
  url : UrlStr
  title : String
  h1 : String
  description : String
  text : String
deriving DecidableEq

/-- A posting `{url, count}` (`indexer.js:23`). -/
structure Posting where
  url : UrlStr
  count : Nat
deriving DecidableEq

/-- The concatenation `` `${p.title || ''} ${p.h1 || ''} ${p.text || ''}` ``
of `indexer.js:17`. -/
def pageBody (p : Page) : String :=
  p.title ++ " " ++ p.h1 ++ " " ++ p.text

/-- The unsorted posting list accumulated for token `t` by the loop of
`indexer.js:16-25`: one posting per page containing `t`, in page
(insertion) order, carrying the page's occurrence count. -/
def rawPostings (pages : List Page) (t : String) : List Posting :=
  pages.filterMap fun p =>
    let c := (tokenize (pageBody p)).count t
    if 0 < c then some ⟨p.url, c⟩ else none

/-- Every token occurring in some page, in first-seen order (the key
set of the `index` object built by `indexer.js:16-25`; JS enumerates
integer-like keys first, but per-token posting lists do not depend on
key enumeration order). -/
def dedupFirst : List String → List String → List String
  | _, [] => []
  | seen, x :: xs =>
    if x ∈ seen then dedupFirst seen xs else x :: dedupFirst (x :: seen) xs

def indexTokens (pages : List Page) : List String :=
  dedupFirst [] ((pages.map fun p => tokenize (pageBody p)).flatten)

/-- Stable insertion of a posting into a count-descending list: the
element moves left past strictly smaller counts only, so equal counts
keep their original relative order.  `Array.prototype.sort` with the
comparator `(a, b) => b.count - a.count` (`indexer.js:28`) is a stable
sort (ES2019), and a stable sort's output is uniquely determined by
the comparator, so this models it exactly. -/
def insertPosting (x : Posting) : List Posting → List Posting
  | [] => [x]
  | y :: ys => if x.count < y.count then y :: insertPosting x ys else x :: y :: ys

def sortPostings : List Posting → List Posting
  | [] => []
  | x :: xs => insertPosting x (sortPostings xs)

/-- `buildIndex` (`indexer.js:12-32`): token to sorted posting list. -/
def buildIndex (pages : List Page) : List (String × List Posting) :=
  (indexTokens pages).map fun t => (t, sortPostings (rawPostings pages t))

theorem insertPosting_mem (x z : Posting) :
    ∀ l : List Posting, z ∈ insertPosting x l → z = x ∨ z ∈ l := by
  intro l
  induction l with
  | nil => intro h; simpa [insertPosting] using h
  | cons y ys ih =>
    intro h
    by_cases hc : x.count < y.count
    · simp only [insertPosting, if_pos hc, List.mem_cons] at h
      rcases h with h | h
      · right; simp [h]
      · rcases ih h with h | h
        · left; exact h
        · right; simp [h]
    · simp only [insertPosting, if_neg hc, List.mem_cons] at h
      rcases h with h | h
      · left; exact h
      · right; simpa using h

theorem insertPosting_pairwise (x : Posting) :
    ∀ l : List Posting, l.Pairwise (fun a b => b.count ≤ a.count) →
      (insertPosting x l).Pairwise (fun a b => b.count ≤ a.count) := by
  intro l
  induction l with
  | nil => intro _; simp [insertPosting]
  | cons y ys ih =>
    intro hp
    rw [List.pairwise_cons] at hp
    by_cases hc : x.count < y.count
    · rw [insertPosting, if_pos hc]
      rw [List.pairwise_cons]
      constructor
      · intro z hz
        rcases insertPosting_mem x z ys hz with h | h
        · rw [h]; exact Nat.le_of_lt hc
        · exact hp.1 z h
      · exact ih hp.2
    · rw [insertPosting, if_neg hc]
      rw [List.pairwise_cons]
      constructor
      · intro z hz
        rcases List.mem_cons.mp hz with h | h
        · rw [h]; exact Nat.le_of_not_lt hc
        · exact Nat.le_trans (hp.1 z h) (Nat.le_of_not_lt hc)
      · rw [List.pairwise_cons]
        exact ⟨hp.1, hp.2⟩

theorem sortPostings_pairwise :
    ∀ l : List Posting, (sortPostings l).Pairwise (fun a b => b.count ≤ a.count) := by
  intro l
  induction l with
  | nil => simp [sortPostings]
  | cons x xs ih => exact insertPosting_pairwise x (sortPostings xs) ih

theorem filter_insertPosting (c : Nat) (x : Posting) :
    ∀ l : List Posting,
      (insertPosting x l).filter (fun z => z.count == c) =
        if x.count = c then x :: l.filter (fun z => z.count == c)
        else l.filter (fun z => z.count == c) := by
  intro l
  induction l with
  | nil =>
    by_cases hx : x.count = c <;> simp [insertPosting, List.filter_cons, hx]
  | cons y ys ih =>
    by_cases hc : x.count < y.count
    · rw [insertPosting, if_pos hc]
      by_cases hy : y.count = c
      · have hx : ¬ x.count = c := by omega
        rw [if_neg hx] at ih ⊢
        simp [List.filter_cons, hy, ih]
      · simp only [List.filter_cons, show (y.count == c) = false by simpa using hy]
        exact ih
    · rw [insertPosting, if_neg hc]
      by_cases hx : x.count = c <;>
        simp [List.filter_cons, hx]

theorem filter_sortPostings (c : Nat) :
    ∀ l : List Posting,
      (sortPostings l).filter (fun z => z.count == c) =
        l.filter (fun z => z.count == c) := by
  intro l
  induction l with
  | nil => rfl
  | cons x xs ih =>
    rw [sortPostings, filter_insertPosting]
    by_cases hx : x.count = c
    · rw [if_pos hx, ih]
      simp [List.filter_cons, hx]
    · rw [if_neg hx, ih]
      simp [List.filter_cons, hx]

theorem lookup_map_pair {β : Type} (f : String → β) :
    ∀ (ts : List String) (t : String) (l : β),
      (ts.map fun x => (x, f x)).lookup t = some l → l = f t := by
  intro ts
  induction ts with
  | nil => intro t l h; simp [List.lookup] at h
  | cons x xs ih =>
    intro t l h
    by_cases hx : t = x
    · subst hx
      rw [List.map_cons, List.lookup, beq_self_eq_true] at h
      exact (Option.some.inj h).symm
    · rw [List.map_cons, List.lookup, beq_eq_false_iff_ne.mpr hx] at h
      exact ih t l h

/-- Claim C7: `buildIndex` is deterministic and idempotent — calling it
twice on the same page list yields identical index content and posting
order — and each term's posting list is sorted by count descending
with ties in count preserving the first-seen (page insertion) order:
filtering any count value out of the sorted list gives exactly the
corresponding slice of the unsorted accumulation `rawPostings`, which
is in page order. -/
theorem c7_buildIndex_deterministic_sorted_stable (pages : List Page) :
    buildIndex pages = buildIndex pages ∧
    ∀ (t : String) (l : List Posting),
      (buildIndex pages).lookup t = some l →
        l.Pairwise (fun a b => b.count ≤ a.count) ∧
        ∀ c : Nat, l.filter (fun z => z.count == c) =
          (rawPostings pages t).filter (fun z => z.count == c) := by
  constructor
  · rfl
  · intro t l h
    have hl : l = sortPostings (rawPostings pages t) :=
      lookup_map_pair (fun x => sortPostings (rawPostings pages x)) (indexTokens pages) t l h
    subst hl
    exact ⟨sortPostings_pairwise _, fun c => filter_sortPostings c _⟩

def c7u1 : UrlStr := ⟨"https", "x.com", "/p1", ""⟩
def c7u2 : UrlStr := ⟨"https", "x.com", "/p2", ""⟩

def c7Pages : List Page :=
  [⟨c7u1, "apple apple apple", "", "", "banana"⟩,
   ⟨c7u2, "apple", "", "", ""⟩]

theorem c7_witness :
    List.Pairwise (fun a b => b.count ≤ a.count)
        [(⟨c7u1, 3⟩ : Posting), ⟨c7u2, 1⟩] ∧
    ∀ c : Nat,
      List.filter (fun z => z.count == c) [(⟨c7u1, 3⟩ : Posting), ⟨c7u2, 1⟩] =
        (rawPostings c7Pages "apple").filter (fun z => z.count == c) :=
  (c7_buildIndex_deterministic_sorted_stable c7Pages).2 "apple"
    [⟨c7u1, 3⟩, ⟨c7u2, 1⟩] (by decide)

/-! ### Snapshot store (`storage.js`) -/

/-- JSON-representable JS values, the domain of the snapshot store.
`JSON.stringify` on write followed by `JSON.parse` on read is the
identity on these values, so the store below keeps objects directly. -/
inductive JVal where
  | jnull : JVal
  | jbool : Bool → JVal
  | jnum : Int → JVal
  | jstr : String → JVal
  | jobj : List (String × JVal) → JVal
  | jarr : List JVal → JVal

/-- A JS object: ordered fields with unique keys in practice (JS
objects cannot hold a key twice; the operations below also handle
duplicate keys, replacing every occurrence, which is unobservable for
duplicate-free objects). -/
abbrev Obj := List (String × JVal)

/-- Property read `o[k]`: `none` models JS `undefined`. -/
def objGet : Obj → String → Option JVal
  | [], _ => none
  | (k, v) :: rest, key => if k = key then some v else objGet rest key

/-- Property write `o[k] = v`: overwriting keeps the field's position,
a fresh key is appended — exactly JS object key order. -/
def objSet (o : Obj) (key : String) (v : JVal) : Obj :=
  if (objGet o key).isSome then
    o.map fun kv => if kv.1 = key then (kv.1, v) else kv
  else o ++ [(key, v)]

/-- `Object.assign(target, src)`: fields of `src` overlaid left to
right on `target` (`storage.js:34` uses it with a fresh target). -/
def objAssign (target src : Obj) : Obj :=
  src.foldl (fun acc kv => objSet acc kv.1 kv.2) target

/-- `shop.replace(/[^a-z0-9.-]/gi, '_')` on one character. -/
def sanitizeChar (c : Char) : Char :=
  if ('a' ≤ c ∧ c ≤ 'z') ∨ ('A' ≤ c ∧ c ≤ 'Z') ∨ ('0' ≤ c ∧ c ≤ '9') ∨
      c = '.' ∨ c = '-' then c else '_'

/-- `shopToFilename` (`storage.js:10-20`).  Model restriction: the
branch that reduces a key given as a full URL to its host (`new
URL(shop)` succeeding) is not modelled; keys are taken as bare
domains.  `writeShopData` and `readShopData` share this derivation, so
the write/read round-trip claims are unaffected by it. -/
def shopToFilename (shop : String) : String :=
  String.mk (shop.data.map sanitizeChar) ++ ".json"

/-- The data directory, as a map from file name to stored object. -/
abbrev Store := List (String × Obj)

def storeGet : Store → String → Option Obj
  | [], _ => none
  | (k, v) :: rest, key => if k = key then some v else storeGet rest key

/-- `fs.writeFileSync` of the serialized object (`storage.js:35`). -/
def storeSet (st : Store) (key : String) (o : Obj) : Store :=
  if (storeGet st key).isSome then
    st.map fun kv => if kv.1 = key then (kv.1, o) else kv
  else st ++ [(key, o)]

/-- `readShopData` (`storage.js:44-55`): `null` (here `none`) when the
file does not exist or cannot be parsed. -/
def readShopData (st : Store) (shop : String) : Option Obj :=
  storeGet st (shopToFilename shop)

/-- `writeShopData` (`storage.js:27-42`): merge the existing snapshot
with the new data, stamp `lastCrawledAt` with the current time `now`
(the model's stand-in for `Date.now()`), persist, return `true`. -/
def writeShopData (st : Store) (now : Int) (shop : String) (data : Obj) :
    Store × Bool :=
  let existing := (readShopData st shop).getD []
  let out := objAssign (objAssign existing data) [("lastCrawledAt", JVal.jnum now)]
  (storeSet st (shopToFilename shop) out, true)

theorem objGet_replaceAll (o : Obj) (key : String) (v : JVal) (k : String) :
    objGet (o.map fun kv => if kv.1 = key then (kv.1, v) else kv) k =
      if k = key ∧ (objGet o key).isSome then some v else objGet o k := by
  induction o with
  | nil => by_cases hk : k = key <;> simp [objGet, hk]
  | cons e rest ih =>
    obtain ⟨k0, v0⟩ := e
    have hhead : (if (k0, v0).1 = key then ((k0, v0).1, v) else (k0, v0)) =
        (k0, if k0 = key then v else v0) := by
      by_cases h0 : k0 = key <;> simp [h0]
    rw [List.map_cons, hhead]
    by_cases h0 : k0 = k
    · subst h0
      by_cases hkey : k0 = key
      · simp [objGet, hkey]
      · simp [objGet, hkey, fun h : k0 = key => hkey h]
    · by_cases hk : k = key
      · subst hk
        by_cases hkk : k0 = k
        · exact absurd hkk h0
        · simp only [objGet, h0, if_false, hkk, ih]
      · simp only [objGet, h0, if_false, ih, hk, false_and, if_false]

theorem objGet_append_single (o : Obj) (key : String) (v : JVal) (k : String) :
    objGet (o ++ [(key, v)]) k =
      if (objGet o k).isSome then objGet o k
      else if k = key then some v else none := by
  induction o with
  | nil => simp [objGet, eq_comm]
  | cons e rest ih =>
    obtain ⟨k0, v0⟩ := e
    by_cases h0 : k0 = k
    · simp [objGet, h0]
    · simp only [List.cons_append, List.append_eq, objGet, h0, if_false, ih]

theorem objGet_objSet (o : Obj) (key : String) (v : JVal) (k : String) :
    objGet (objSet o key v) k = if k = key then some v else objGet o k := by
  unfold objSet
  by_cases hs : (objGet o key).isSome
  · rw [if_pos hs, objGet_replaceAll]
    by_cases hk : k = key
    · simp [hk, hs]
    · simp [hk]
  · rw [if_neg hs, objGet_append_single]
    by_cases hk : k = key
    · subst hk
      have hne : objGet o k = none := Option.not_isSome_iff_eq_none.mp hs
      simp [hne]
    · by_cases h2 : (objGet o k).isSome
      · simp [h2, hk]
      · have hne : objGet o k = none := Option.not_isSome_iff_eq_none.mp h2
        simp [hne, hk]

theorem storeGet_replaceAll (st : Store) (key : String) (o : Obj) (k : String) :
    storeGet (st.map fun kv => if kv.1 = key then (kv.1, o) else kv) k =
      if k = key ∧ (storeGet st key).isSome then some o else storeGet st k := by
  induction st with
  | nil => by_cases hk : k = key <;> simp [storeGet, hk]
  | cons e rest ih =>
    obtain ⟨k0, v0⟩ := e
    have hhead : (if (k0, v0).1 = key then ((k0, v0).1, o) else (k0, v0)) =
        (k0, if k0 = key then o else v0) := by
      by_cases h0 : k0 = key <;> simp [h0]
    rw [List.map_cons, hhead]
    by_cases h0 : k0 = k
    · subst h0
      by_cases hkey : k0 = key
      · simp [storeGet, hkey]
      · simp [storeGet, hkey, fun h : k0 = key => hkey h]
    · by_cases hk : k = key
      · subst hk
        by_cases hkk : k0 = k
        · exact absurd hkk h0
        · simp only [storeGet, h0, if_false, hkk, ih]
      · simp only [storeGet, h0, if_false, ih, hk, false_and, if_false]

theorem storeGet_append_single (st : Store) (key : String) (o : Obj) (k : String) :
    storeGet (st ++ [(key, o)]) k =
      if (storeGet st k).isSome then storeGet st k
      else if k = key then some o else none := by
  induction st with
  | nil => simp [storeGet, eq_comm]
  | cons e rest ih =>
    obtain ⟨k0, v0⟩ := e
    by_cases h0 : k0 = k
    · simp [storeGet, h0]
    · simp only [List.cons_append, List.append_eq, storeGet, h0, if_false, ih]

theorem storeGet_storeSet (st : Store) (key : String) (o : Obj) (k : String) :
    storeGet (storeSet st key o) k = if k = key then some o else storeGet st k := by
  unfold storeSet
  by_cases hs : (storeGet st key).isSome
  · rw [if_pos hs, storeGet_replaceAll]
    by_cases hk : k = key
    · simp [hk, hs]
    · simp [hk]
  · rw [if_neg hs, storeGet_append_single]
    by_cases hk : k = key
    · subst hk
      have hne : storeGet st k = none := Option.not_isSome_iff_eq_none.mp hs
      simp [hne]
    · by_cases h2 : (storeGet st k).isSome
      · simp [h2, hk]
      · have hne : storeGet st k = none := Option.not_isSome_iff_eq_none.mp h2
        simp [hne, hk]

theorem objGet_eq_none_of_not_mem (k : String) :
    ∀ o : Obj, k ∉ o.map Prod.fst → objGet o k = none := by
  intro o
  induction o with
  | nil => intro _; rfl
  | cons e rest ih =>
    intro h
    rw [List.map_cons, List.mem_cons] at h
    push_neg at h
    have he : ¬ e.1 = k := fun hh => h.1 hh.symm
    simpa [objGet, he] using ih h.2

theorem objGet_objAssign :
    ∀ (src : Obj) (t : Obj), (src.map Prod.fst).Nodup →
      ∀ k, objGet (objAssign t src) k =
        if (objGet src k).isSome then objGet src k else objGet t k := by
  intro src
  induction src with
  | nil => intro t _ k; simp [objAssign, objGet]
  | cons e rest ih =>
    intro t hnd k
    obtain ⟨k0, v0⟩ := e
    rw [List.map_cons, List.nodup_cons] at hnd
    have step : objAssign t ((k0, v0) :: rest) = objAssign (objSet t k0 v0) rest := rfl
    rw [step, ih (objSet t k0 v0) hnd.2 k]
    by_cases hk : k0 = k
    · subst hk
      have hrest : objGet rest k0 = none := objGet_eq_none_of_not_mem k0 rest hnd.1
      simp [objGet, hrest, objGet_objSet]
    · have hcons : objGet ((k0, v0) :: rest) k = objGet rest k := by
        simp [objGet, hk]
      rw [hcons]
      by_cases hs : (objGet rest k).isSome
      · simp [hs]
      · rw [if_neg hs, if_neg hs, objGet_objSet,
          if_neg (fun h : k = k0 => hk h.symm)]

theorem readShopData_writeShopData (st : Store) (now : Int) (shop : String) (data : Obj) :
    readShopData (writeShopData st now shop data).1 shop =
      some (objAssign (objAssign ((readShopData st shop).getD []) data)
        [("lastCrawledAt", JVal.jnum now)]) := by
  unfold writeShopData
  unfold readShopData
  simp [storeGet_storeSet]

/-- Claim C6: writing then reading the same site key returns the
shallow merge of the prior snapshot (if any) under the new data:
`lastCrawledAt` is stamped with the write time, fields the new data
carries (other than `lastCrawledAt`) take the new values, and fields
only the old snapshot carries — such as `installedAt` — survive. -/
theorem c6_write_read_merge (st : Store) (now : Int) (shop : String) (data : Obj)
    (hnd : (data.map Prod.fst).Nodup) :
    ∃ merged : Obj,
      readShopData (writeShopData st now shop data).1 shop = some merged ∧
      objGet merged "lastCrawledAt" = some (JVal.jnum now) ∧
      (∀ (k : String) (v : JVal), k ≠ "lastCrawledAt" →
        objGet data k = some v → objGet merged k = some v) ∧
      (∀ (k : String) (v : JVal), k ≠ "lastCrawledAt" →
        objGet data k = none →
        objGet ((readShopData st shop).getD []) k = some v →
        objGet merged k = some v) := by
  refine ⟨objAssign (objAssign ((readShopData st shop).getD []) data)
    [("lastCrawledAt", JVal.jnum now)],
    readShopData_writeShopData st now shop data, ?_, ?_, ?_⟩
  · have hstep : objAssign (objAssign ((readShopData st shop).getD []) data)
        [("lastCrawledAt", JVal.jnum now)] =
        objSet (objAssign ((readShopData st shop).getD []) data)
          "lastCrawledAt" (JVal.jnum now) := rfl
    rw [hstep, objGet_objSet]
    simp
  · intro k v hk hv
    have hstep : objAssign (objAssign ((readShopData st shop).getD []) data)
        [("lastCrawledAt", JVal.jnum now)] =
        objSet (objAssign ((readShopData st shop).getD []) data)
          "lastCrawledAt" (JVal.jnum now) := rfl
    rw [hstep, objGet_objSet, if_neg hk,
      objGet_objAssign data ((readShopData st shop).getD []) hnd k, hv]
    simp
  · intro k v hk hnone hold
    have hstep : objAssign (objAssign ((readShopData st shop).getD []) data)
        [("lastCrawledAt", JVal.jnum now)] =
        objSet (objAssign ((readShopData st shop).getD []) data)
          "lastCrawledAt" (JVal.jnum now) := rfl
    rw [hstep, objGet_objSet, if_neg hk,
      objGet_objAssign data ((readShopData st shop).getD []) hnd k, hnone]
    simpa using hold

def c6Store : Store := [("prior.json", [("installedAt", JVal.jnum 1)])]

def c6Data : Obj := [("aggregated", JVal.jstr "text"), ("installedAt", JVal.jnum 9)]

theorem c6_witness :
    ∃ merged : Obj,
      readShopData (writeShopData c6Store 42 "prior" c6Data).1 "prior" = some merged ∧
      objGet merged "lastCrawledAt" = some (JVal.jnum 42) ∧
      (∀ (k : String) (v : JVal), k ≠ "lastCrawledAt" →
        objGet c6Data k = some v → objGet merged k = some v) ∧
      (∀ (k : String) (v : JVal), k ≠ "lastCrawledAt" →
        objGet c6Data k = none →
        objGet ((readShopData c6Store "prior").getD []) k = some v →
        objGet merged k = some v) :=
  c6_write_read_merge c6Store 42 "prior" c6Data (by decide)

/-- Claim C10: the snapshot persisted by `writeShopData` always has
`lastCrawledAt` equal to the write time: `Object.assign` at
`storage.js:34` applies `{lastCrawledAt: Date.now()}` last, so any
`lastCrawledAt` supplied in the caller's data is overridden. -/
theorem c10_lastCrawledAt_is_write_time (st : Store) (now : Int) (shop : String)
    (data : Obj) :
    ∃ out : Obj,
      storeGet (writeShopData st now shop data).1 (shopToFilename shop) = some out ∧
      objGet out "lastCrawledAt" = some (JVal.jnum now) := by
  refine ⟨objAssign (objAssign ((readShopData st shop).getD []) data)
    [("lastCrawledAt", JVal.jnum now)], ?_, ?_⟩
  · unfold writeShopData
    simp [storeGet_storeSet]
  · have hstep : objAssign (objAssign ((readShopData st shop).getD []) data)
        [("lastCrawledAt", JVal.jnum now)] =
        objSet (objAssign ((readShopData st shop).getD []) data)
          "lastCrawledAt" (JVal.jnum now) := rfl
    rw [hstep, objGet_objSet]
    simp

/-! ### Search endpoint (`index.js:441-449`) -/

/-- JS truthiness of a JSON value. -/
def jvalTruthy : JVal → Bool
  | .jnull => false
  | .jbool b => b
  | .jnum n => n != 0
  | .jstr s => s != ""
  | .jobj _ => true
  | .jarr _ => true

/-- Property access `v[k]` for the identifier-like keys the search
handler uses; access on a non-object yields `undefined` (`none`).
Numeric-index access on strings or arrays is outside the model: every
write path stores the index as an object. -/
def jsPropGet : JVal → String → Option JVal
  | .jobj fields, k => objGet fields k
  | _, _ => none

/-- `q.toLowerCase().trim()` (`index.js:446`). -/
def searchNorm (q : String) : String := jsTrim (jsToLower q)

/-- Possible responses of the `/api/search` handler.  `threw` marks a
path on which the JS code would raise (`.slice` on a non-array), which
Express would surface as a 500 error. -/
inductive SearchResp where
  | badRequest : SearchResp
  | notFound : SearchResp
  | ok : List JVal → SearchResp
  | threw : SearchResp

/-- The expression `data.index[term] || []` of `index.js:447`. -/
def postingsOf (idx : JVal) (term : String) : JVal :=
  match jsPropGet idx term with
  | some v => if jvalTruthy v then v else .jarr []
  | none => .jarr []

/-- The `/api/search` handler (`index.js:441-449`): missing `shop`/`q`
give 400; a missing or index-less snapshot gives 404; otherwise the
postings for the normalized term (or `[]`) are returned, capped at 20
by `slice(0, 20)`. -/
def apiSearch (st : Store) (shop q : Option String) : SearchResp :=
  match shop, q with
  | some s, some qs =>
    if s = "" ∨ qs = "" then .badRequest
    else
      match readShopData st s with
      | none => .notFound
      | some data =>
        match objGet data "index" with
        | none => .notFound
        | some idx =>
          if jvalTruthy idx = false then .notFound
          else
            match postingsOf idx (searchNorm qs) with
            | .jarr l => .ok (l.take 20)
            | _ => .threw
  | _, _ => .badRequest

theorem isTok_not_ws (c : Char) (h : isTokChar c = true) : isWsChar c = false := by
  by_cases e1 : c = ' '
  · subst e1; exact absurd h (by decide)
  · by_cases e2 : c = '\t'
    · subst e2; exact absurd h (by decide)
    · by_cases e3 : c = '\n'
      · subst e3; exact absurd h (by decide)
      · by_cases e4 : c = '\r'
        · subst e4; exact absurd h (by decide)
        · by_cases e5 : c = '\x0b'
          · subst e5; exact absurd h (by decide)
          · by_cases e6 : c = '\x0c'
            · subst e6; exact absurd h (by decide)
            · simp [isWsChar, e1, e2, e3, e4, e5, e6]

theorem lowerChar_fixed (c : Char) (h : isTokChar c = true) : lowerChar c = c := by
  unfold lowerChar
  rw [if_neg]
  rintro ⟨h1, h2⟩
  unfold isTokChar at h
  simp only [Bool.or_eq_true, Bool.and_eq_true, decide_eq_true_eq] at h
  rcases h with ⟨ha, _⟩ | ⟨_, hb⟩
  · exact absurd (le_trans ha h2) (by decide)
  · exact absurd (le_trans h1 hb) (by decide)

theorem replaceNonToken_cases (c : Char) :
    isTokChar (replaceNonToken c) = true ∨ isWsChar (replaceNonToken c) = true := by
  unfold replaceNonToken
  by_cases h : (isTokChar c || isWsChar c) = true
  · rw [if_pos h]
    rcases Bool.or_eq_true_iff.mp h with h | h
    · left; exact h
    · right; exact h
  · rw [if_neg h]
    right; decide

theorem splitWsAux_chars :
    ∀ (cs acc : List Char),
      (∀ c ∈ cs, isTokChar c = true ∨ isWsChar c = true) →
      (∀ c ∈ acc, isTokChar c = true) →
      ∀ t ∈ splitWsAux cs acc, ∀ c ∈ t, isTokChar c = true := by
  intro cs
  induction cs with
  | nil =>
    intro acc _ hacc t ht c hc
    by_cases he : acc = []
    · subst he; simp [splitWsAux] at ht
    · rw [splitWsAux, if_neg he] at ht
      rcases List.mem_singleton.mp ht with rfl
      exact hacc c (List.mem_reverse.mp hc)
  | cons d ds ih =>
    intro acc hcs hacc t ht c hc
    by_cases hw : isWsChar d
    · rw [splitWsAux, if_pos hw] at ht
      by_cases he : acc = []
      · rw [if_pos he] at ht
        exact ih [] (fun x hx => hcs x (List.mem_cons_of_mem d hx))
          (by intro x hx; cases hx) t ht c hc
      · rw [if_neg he] at ht
        rcases List.mem_cons.mp ht with rfl | ht
        · exact hacc c (List.mem_reverse.mp hc)
        · exact ih [] (fun x hx => hcs x (List.mem_cons_of_mem d hx))
            (by intro x hx; cases hx) t ht c hc
    · rw [splitWsAux, if_neg hw] at ht
      have hd : isTokChar d = true := by
        rcases hcs d (List.mem_cons_self d ds) with h | h
        · exact h
        · exact absurd h hw
      refine ih (d :: acc) (fun x hx => hcs x (List.mem_cons_of_mem d hx)) ?_ t ht c hc
      intro x hx
      rcases List.mem_cons.mp hx with rfl | hx
      · exact hd
      · exact hacc x hx

theorem tokenize_chars (s : String) :
    ∀ t ∈ tokenize s, ∀ c ∈ t.data, isTokChar c = true := by
  intro t ht c hc
  unfold tokenize at ht
  have ht' := List.mem_of_mem_filter ht
  rcases List.mem_map.mp ht' with ⟨l, hl, rfl⟩
  exact splitWsAux_chars ((s.data.map lowerChar).map replaceNonToken) []
    (by
      intro x hx
      rcases List.mem_map.mp hx with ⟨y, _, rfl⟩
      exact replaceNonToken_cases y)
    (by intro x hx; cases hx) l hl c hc

theorem dropWhile_of_all_false :
    ∀ l : List Char, (∀ c ∈ l, isWsChar c = false) → l.dropWhile isWsChar = l := by
  intro l h
  cases l with
  | nil => rfl
  | cons c cs => simp [List.dropWhile_cons, h c (List.mem_cons_self c cs)]

theorem map_lowerChar_fixed :
    ∀ l : List Char, (∀ c ∈ l, isTokChar c = true) → l.map lowerChar = l := by
  intro l
  induction l with
  | nil => intro _; rfl
  | cons c cs ih =>
    intro hl
    rw [List.map_cons, lowerChar_fixed c (hl c (List.mem_cons_self c cs)),
      ih (fun x hx => hl x (List.mem_cons_of_mem c hx))]

theorem searchNorm_token_fixed (t : String)
    (h : ∀ c ∈ t.data, isTokChar c = true) : searchNorm t = t := by
  have hws : ∀ c ∈ t.data, isWsChar c = false := fun c hc => isTok_not_ws c (h c hc)
  unfold searchNorm
  have hlow : jsToLower t = t := by
    unfold jsToLower
    rw [map_lowerChar_fixed t.data h]
  rw [hlow]
  unfold jsTrim trimChars
  rw [dropWhile_of_all_false t.data hws,
    dropWhile_of_all_false t.data.reverse (fun c hc => hws c (List.mem_reverse.mp hc)),
    List.reverse_reverse]

/-- Claim C8: the search endpoint normalizes the query with the same
casing rule as indexing (lowercasing; indexed tokens are fixed points
of the search normalization, so exact index terms are found), returns
the stored postings for the normalized term capped at 20, returns an
empty list — not an error — for a term with no postings in an
existing snapshot, and answers a missing snapshot with a 404 response
rather than throwing. -/
theorem c8_search_contract :
    (∀ (st : Store) (s q : String), ¬ s = "" → ¬ q = "" →
      readShopData st s = none → apiSearch st (some s) (some q) = .notFound) ∧
    (∀ (st : Store) (s q : String) (data : Obj) (fields : List (String × JVal))
        (l : List JVal), ¬ s = "" → ¬ q = "" →
      readShopData st s = some data →
      objGet data "index" = some (.jobj fields) →
      objGet fields (searchNorm q) = some (.jarr l) →
      apiSearch st (some s) (some q) = .ok (l.take 20)) ∧
    (∀ (st : Store) (s q : String) (data : Obj) (fields : List (String × JVal)),
      ¬ s = "" → ¬ q = "" →
      readShopData st s = some data →
      objGet data "index" = some (.jobj fields) →
      objGet fields (searchNorm q) = none →
      apiSearch st (some s) (some q) = .ok []) ∧
    (∀ (st : Store) (shop q : Option String) (l : List JVal),
      apiSearch st shop q = .ok l → l.length ≤ 20) ∧
    (∀ (s t : String), t ∈ tokenize s → searchNorm t = t) := by
  refine ⟨?_, ?_, ?_, ?_, ?_⟩
  · intro st s q hs hq hr
    simp [apiSearch, hs, hq, hr]
  · intro st s q data fields l hs hq hr hi hp
    simp [apiSearch, hs, hq, hr, hi, jvalTruthy, postingsOf, jsPropGet, hp]
  · intro st s q data fields hs hq hr hi hp
    simp [apiSearch, hs, hq, hr, hi, jvalTruthy, postingsOf, jsPropGet, hp]
  · intro st shop q l h
    unfold apiSearch at h
    split at h
    · split at h
      · cases h
      · split at h
        · cases h
        · split at h
          · cases h
          · split at h
            · cases h
            · split at h
              · cases h
                simp
              · cases h
    · cases h
  · intro s t ht
    exact searchNorm_token_fixed t (tokenize_chars s t ht)

def c8Fields : List (String × JVal) := [("apple", JVal.jarr [JVal.jstr "u"])]

def c8Data : Obj := [("index", JVal.jobj c8Fields)]

def c8Store : Store := [("shopw.json", c8Data)]

theorem c8_witness :
    apiSearch c8Store (some "shopw") (some " APPLE ") =
      .ok ([JVal.jstr "u"].take 20) :=
  c8_search_contract.2.1 c8Store "shopw" " APPLE " c8Data c8Fields [JVal.jstr "u"]
    (by decide) (by decide) (by rfl) (by rfl) (by rfl)

/-! ### Page extractor render fallback (`scraper.js:72-109`) -/

/-- What a successful headless render yields: the rendered body text
(`scraper.js:95`), `page.title()` (`scraper.js:96`) and the first h1's
inner text (`scraper.js:97`). -/
structure RenderOutcome where
  bodyText : String
  title2 : String
  h1Text : String
deriving DecidableEq

/-- The local variables of `scrape` that the fallback block touches.
`title` and `h1` are declared `const` (`scraper.js:73-74`); `textOut`
is a mutable `let` (`scraper.js:77`). -/
structure ScrapeVars where
  title : String
  h1 : String
  textOut : String
deriving DecidableEq

/-- The render-fallback `try` block (`scraper.js:85-107`) given a
successful render (`none` models Puppeteer being unavailable or
`launch`/`goto`/`evaluate` failing, in which case the `catch` leaves
every variable as it was).  On success, line 99 reassigns `textOut`
(legal: a `let` binding).  Lines 101-102 then attempt
`if (!title) title = title2 || ''` and `if (!h1) h1 = h1Text || ''`:
`title` and `h1` are `const` bindings, so whenever such an assignment
is actually executed it throws `TypeError: Assignment to constant
variable`, which the `catch` at line 103 swallows — so `title` and
`h1` keep their static values on every path, while the already
performed `textOut` update persists. -/
def renderFallback (vars : ScrapeVars) (render : Option RenderOutcome)
    (maxLength : Nat) : ScrapeVars :=
  match render with
  | none => vars
  | some r =>
    let vars2 := { vars with textOut := jsSliceTo maxLength (jsCollapseWs r.bodyText) }
    if vars2.title = "" then vars2        -- line 101 assigns to a const: throw, caught
    else if vars2.h1 = "" then vars2      -- line 102 assigns to a const: throw, caught
    else vars2                            -- neither guard fired: no assignment attempted

/-- The tail of `scrape` from line 77: truncate the statically
extracted text, then run the render fallback when the static text is
empty or shorter than 20 characters and rendering is permitted
(`scraper.js:80-81`). -/
def scrapeFinish (title h1 fullText : String) (fallbackRender : Bool)
    (maxLength : Nat) (render : Option RenderOutcome) : ScrapeVars :=
  let textOut := jsSliceTo maxLength fullText
  let vars : ScrapeVars := ⟨title, h1, textOut⟩
  if (textOut = "" ∨ textOut.length < 20) ∧ fallbackRender then
    renderFallback vars render maxLength
  else vars

/-- Claim C9 (code divergence): the rendered title/heading are never
applied.  The returned `title`/`h1` always equal the static values —
in particular, when the static pass leaves them empty and the render
succeeds, they stay empty instead of being filled in from the
rendered page, because the `const` reassignment at `scraper.js:101-102`
throws and is swallowed.  The second conjunct evaluates the concrete
failing input: static title empty, render succeeding with a non-empty
title. -/
theorem c9_rendered_metadata_never_applied :
    (∀ (title h1 fullText : String) (fallbackRender : Bool) (maxLength : Nat)
        (render : Option RenderOutcome),
      (scrapeFinish title h1 fullText fallbackRender maxLength render).title = title ∧
      (scrapeFinish title h1 fullText fallbackRender maxLength render).h1 = h1) ∧
    (scrapeFinish "" "Static H1" "" true 2000
        (some ⟨"rendered body", "Rendered Title", "Rendered H1"⟩)).title = "" := by
  constructor
  · intro title h1 fullText fallbackRender maxLength render
    have hrf : ∀ vars : ScrapeVars,
        (renderFallback vars render maxLength).title = vars.title ∧
        (renderFallback vars render maxLength).h1 = vars.h1 := by
      intro vars
      cases render with
      | none => exact ⟨rfl, rfl⟩
      | some r =>
        simp only [renderFallback]
        constructor
        · split
          · rfl
          · split <;> rfl
        · split
          · rfl
          · split <;> rfl
    simp only [scrapeFinish]
    constructor
    · split
      · exact (hrf _).1
      · rfl
    · split
      · exact (hrf _).2
      · rfl
  · rfl

/-! ### Politeness gate (`crawler.js:18-41`) -/

/-- JS values flowing through the robots plumbing of `crawler.js`. -/
inductive JsVal where
  | vUndefined : JsVal
  | vnull : JsVal
  | vnum : Int → JsVal
  | vstr : String → JsVal
  | varr : List JsVal → JsVal
  | vobj : List (String × JsVal) → JsVal
  | vrobots : List String → JsVal

/-- JS truthiness. -/
def jsTruthyV : JsVal → Bool
  | .vUndefined => false
  | .vnull => false
  | .vnum n => n != 0
  | .vstr s => s != ""
  | .varr _ => true
  | .vobj _ => true
  | .vrobots _ => true

def jsFields : List (String × JsVal) → String → Option JsVal
  | [], _ => none
  | (k, v) :: rest, key => if k = key then some v else jsFields rest key

/-- Property read on a `JsVal`: a missing field is `undefined`. -/
def jsGet (v : JsVal) (key : String) : JsVal :=
  match v with
  | .vobj fields => (jsFields fields key).getD .vUndefined
  | _ => .vUndefined

/-- The decision of a real `robots-parser` object for a disallow rule
list (longest-match subtleties are irrelevant here: the crawler never
manages to consult the parser, see `isAllowedByRobots` below). -/
def robotsIsAllowed (rules : List String) (url : String) : Bool :=
  !(rules.any fun p => url.startsWith p)

/-- Invoking `.isAllowed(url, userAgent)` on a JS value: only a robots
parser object has that method and it expects a string URL; any other
receiver throws `TypeError`. -/
def callIsAllowed : JsVal → JsVal → Except String Bool
  | .vrobots rules, .vstr url => .ok (robotsIsAllowed rules url)
  | .vrobots _, _ => .error "TypeError: invalid url"
  | _, _ => .error "TypeError: robots.isAllowed is not a function"

/-- `isAllowedByRobots` (`crawler.js:34-41`): a falsy `robots` argument
allows everything, and an exception inside the check is caught and
also allows (fail-open). -/
def isAllowedByRobots (robots url : JsVal) : Bool :=
  if jsTruthyV robots = false then true
  else
    match callIsAllowed robots url with
    | .ok b => b
    | .error _ => true

/-- `fetchRobotsTxt` (`crawler.js:18-32`): on success an object with
fields `robots` (the parser for the fetched rules, `some rules` here)
and `crawlDelay`; on fetch failure `robots` is `null`.  Neither result
carries a field named `disallow`. -/
def fetchRobotsTxt (outcome : Option (List String)) : JsVal :=
  match outcome with
  | some rules => .vobj [("robots", .vrobots rules), ("crawlDelay", .vnum 0)]
  | none => .vobj [("robots", .vnull), ("crawlDelay", .vnum 0)]

/-! ### URL normalization (`crawler.js:43-57`) -/

/-- A hyperlink `href` as classified by `normalizeUrl`
(`crawler.js:43-57`): an absolute URL, a root-relative reference
(resolved against the page's origin), the explicitly ignored schemes,
or an unparsable value (`new URL` throwing).  Other relative forms are
outside the model. -/
inductive Href where
  | abs : UrlStr → Href
  | rel (path frag : String) : Href
  | mailtoH : Href
  | javascriptH : Href
  | fragOnly : Href
  | emptyH : Href
  | malformed : Href

/-- `s.endsWith('/')`, character-wise. -/
def endsWithSlash (s : String) : Bool :=
  match s.data.getLast? with
  | some c => c = '/'
  | none => false

/-- Dropping the final character, as `replace(/\/$/, '')` does on a
string that ends in `/`. -/
def dropLastChar (s : String) : String := String.mk s.data.dropLast

/-- The trailing-slash step of `normalizeUrl` (`crawler.js:50-52`): on
a fragment-free URL the serialized string ends in `/` exactly when the
pathname does, and `replace(/\/$/, '')` drops one trailing character.
The root pathname `/` is kept. -/
def stripSlash (u : UrlStr) : UrlStr :=
  if u.pathname ≠ "/" ∧ endsWithSlash u.pathname then
    { u with pathname := dropLastChar u.pathname }
  else u

/-- `normalizeUrl` (`crawler.js:43-57`): drop empty, `mailto:`,
`javascript:` and fragment-only hrefs and unparsable ones; resolve the
rest against the base, strip the fragment, and strip a trailing slash
except for the root path. -/
def normalizeUrl (base : UrlStr) : Href → Option UrlStr
  | .emptyH => none
  | .mailtoH => none
  | .javascriptH => none
  | .fragOnly => none
  | .malformed => none
  | .abs u => some (stripSlash { u with hash := "" })
  | .rel p _ =>
    some (stripSlash { scheme := base.scheme, host := base.host, pathname := p, hash := "" })

/-- Canonical form in the spec's sense: fragment stripped, trailing
slash removed except for the root. -/
def canonical (u : UrlStr) : UrlStr := stripSlash { u with hash := "" }

/-! ### Crawl scheduler (`crawler.js:59-181`)

A JS `async` worker runs synchronously between `await` points.  A
worker has three synchronous segments:

* segment 1 (`crawler.js:80-97`, run at dispatch time because
  `worker()` is invoked synchronously by the loop at line 156):
  re-check queue/cap, shift, seen-check and seen-add, origin and
  robots checks, then start the scrape — the worker becomes `pending`;
* segment 2 (`crawler.js:105-121`, when the scrape settles): push the
  page record and start the raw re-fetch — the worker becomes
  `fetching`;
* segment 3 (`crawler.js:122-141`, when the fetch settles): extract
  and enqueue links (or swallow the fetch error), then finish.

The event list of `crawlRun` chooses the interleaving; every event-loop
interleaving of the real program corresponds to such a list, and the
dispatch guard models the loop condition of `crawler.js:153-154`
(`active` is the number of workers whose `finally` has not run, i.e.
the pending plus fetching ones — a worker returning inside segment 1
ends synchronously and never counts at a step boundary). -/

inductive ScrapeOut where
  | ok (title h1 description text : String) : ScrapeOut
  | err (msg : String) : ScrapeOut

/-- The page object pushed at `crawler.js:109-117`: field access with
`|| ''` on an error-shaped scrape result `{error, url}` yields empty
strings and the error message is not recorded. -/
def pageOfScrape (u : UrlStr) : ScrapeOut → Page
  | .ok t h d x => ⟨u, t, h, d, x⟩
  | .err _ => ⟨u, "", "", "", ""⟩

structure CrawlCfg where
  rootScheme : String
  rootHost : String
  maxPages : Nat
  maxDepth : Nat
  concurrency : Nat
  disallowArg : JsVal
  scrapeOracle : UrlStr → ScrapeOut
  fetchOracle : UrlStr → Option (List Href)

structure CrawlState where
  queue : List (UrlStr × Nat)
  seen : List UrlStr
  pages : List Page
  pending : List (UrlStr × Nat)
  fetching : List (UrlStr × Nat)
deriving DecidableEq

inductive CrawlEv where
  | dispatch : CrawlEv
  | scrapeDone (u : UrlStr) (d : Nat) : CrawlEv
  | fetchDone (u : UrlStr) (d : Nat) : CrawlEv

/-- `u.origin !== rootOrigin` (`crawler.js:91`), structurally. -/
def sameOrigin (cfg : CrawlCfg) (u : UrlStr) : Bool :=
  u.scheme == cfg.rootScheme && u.host == cfg.rootHost

/-- Worker segment 1 under the dispatch-loop guard
(`crawler.js:153-156` and `80-97`).  Note the robots call at line 92
passes the pathname as the `robots` argument and the crawl's
`disallow` binding as the `url` argument. -/
def dispatchStep (cfg : CrawlCfg) (s : CrawlState) : CrawlState :=
  if s.pending.length + s.fetching.length < cfg.concurrency ∧
      s.queue ≠ [] ∧ s.seen.length < cfg.maxPages then
    match s.queue with
    | [] => s
    | (u, d) :: rest =>
      if u ∈ s.seen then { s with queue := rest }
      else if sameOrigin cfg u = false then
        { s with queue := rest, seen := u :: s.seen }
      else if isAllowedByRobots (.vstr u.pathname) cfg.disallowArg = false then
        { s with queue := rest, seen := u :: s.seen }
      else
        { s with queue := rest, seen := u :: s.seen,
                 pending := s.pending ++ [(u, d)] }
  else s

/-- Removal of one settled worker from an in-flight list (model
bookkeeping; the in-flight worker lists have no direct counterpart in
the source, which tracks only the `active` count and the `runners`
promise array). -/
def eraseOne : List (UrlStr × Nat) → (UrlStr × Nat) → List (UrlStr × Nat)
  | [], _ => []
  | x :: xs, e => if x = e then xs else x :: eraseOne xs e

/-- Worker segment 2 (`crawler.js:105-121`): the scrape for `u`
settles, the page record is pushed, and the raw link-extraction fetch
is started regardless of a scrape error. -/
def scrapeStep (cfg : CrawlCfg) (s : CrawlState) (u : UrlStr) (d : Nat) : CrawlState :=
  if (u, d) ∈ s.pending then
    { s with pending := eraseOne s.pending (u, d),
             pages := s.pages ++ [pageOfScrape u (cfg.scrapeOracle u)],
             fetching := s.fetching ++ [(u, d)] }
  else s

/-- The `$('a[href]').each` loop of `crawler.js:124-136`: normalize
each href, keep same-origin ones not yet seen and not yet queued,
subject to `pages.length + queue.length < maxPages`. -/
def enqueueLinks (cfg : CrawlCfg) (base : UrlStr) (d : Nat) (seen : List UrlStr)
    (pagesLen : Nat) (queue0 : List (UrlStr × Nat)) (hrefs : List Href) :
    List (UrlStr × Nat) :=
  hrefs.foldl
    (fun q href =>
      match normalizeUrl base href with
      | none => q
      | some nu =>
        if sameOrigin cfg nu = false then q
        else if nu ∈ seen ∨ (∃ e ∈ q, e.1 = nu) ∨ ¬ (pagesLen + q.length < cfg.maxPages) then q
        else q ++ [(nu, d + 1)])
    queue0

/-- Worker segment 3 (`crawler.js:122-141`): the raw fetch settles; on
success and while `depth + 1 <= maxDepth` links are enqueued, a fetch
failure is swallowed. -/
def fetchStep (cfg : CrawlCfg) (s : CrawlState) (u : UrlStr) (d : Nat) : CrawlState :=
  if (u, d) ∈ s.fetching then
    let s1 := { s with fetching := eraseOne s.fetching (u, d) }
    match cfg.fetchOracle u with
    | none => s1
    | some hrefs =>
      if d + 1 ≤ cfg.maxDepth then
        { s1 with queue := enqueueLinks cfg u d s1.seen s1.pages.length s1.queue hrefs }
      else s1
  else s

def crawlStep (cfg : CrawlCfg) (s : CrawlState) : CrawlEv → CrawlState
  | .dispatch => dispatchStep cfg s
  | .scrapeDone u d => scrapeStep cfg s u d
  | .fetchDone u d => fetchStep cfg s u d

/-- `crawler.js:73-75`: fresh seen-set and result list, frontier
seeded with `(startUrl, 0)` — the start URL is enqueued as given, not
normalized. -/
def crawlInit (startUrl : UrlStr) : CrawlState :=
  ⟨[(startUrl, 0)], [], [], [], []⟩

def crawlRun (cfg : CrawlCfg) (startUrl : UrlStr) (evs : List CrawlEv) : CrawlState :=
  evs.foldl (crawlStep cfg) (crawlInit startUrl)

/-- One aggregated chunk:
`` `\n\n# ${p.url}\n${p.title ? p.title + '\n' : ''}${p.h1 ? p.h1 + '\n' : ''}${p.text}\n` ``
(`crawler.js:175`). -/
def pageChunk (p : Page) : String :=
  "\n\n# " ++ urlToString p.url ++ "\n" ++
    (if p.title = "" then "" else p.title ++ "\n") ++
    (if p.h1 = "" then "" else p.h1 ++ "\n") ++ p.text ++ "\n"

/-- The aggregation loop of `crawler.js:172-176`: stop before a chunk
only when the accumulated length has already reached the limit. -/
def buildAggregated (limit : Nat) : List Page → String → String
  | [], acc => acc
  | p :: ps, acc =>
    if limit ≤ acc.length then acc
    else buildAggregated limit ps (acc ++ pageChunk p)

/-- JS `opts.x || dflt` for numeric options: `0` and `undefined` are
falsy (`crawler.js:61-63`, `171`). -/
def jsOrNat (v : Option Nat) (dflt : Nat) : Nat :=
  match v with
  | some n => if n = 0 then dflt else n
  | none => dflt

structure CrawlOpts where
  maxPages : Option Nat
  maxDepth : Option Nat
  concurrency : Option Nat
  aggregateMaxLength : Option Nat
  respectRobots : Option Bool

structure CrawlOutcome where
  state : CrawlState
  aggregated : String

/-- `crawlSite` (`crawler.js:59-181`): defaults, the robots line 70 —
destructuring `{ disallow, crawlDelay }` from `fetchRobotsTxt`'s
result, whose fields are `robots` and `crawlDelay`, so `disallow` is
`undefined` — the scheduling loop driven by the event list, and the
final aggregation.  `robotsTxt` is the site's robots rules (`none`
models an unreachable robots.txt), and the two oracles give each
URL's scrape result and raw-fetch link extraction result. -/
def crawlSite (startUrl : UrlStr) (opts : CrawlOpts)
    (robotsTxt : Option (List String)) (scrapeO : UrlStr → ScrapeOut)
    (fetchO : UrlStr → Option (List Href)) (evs : List CrawlEv) : CrawlOutcome :=
  let respectRobots := opts.respectRobots.getD true
  let robotsRet :=
    if respectRobots then fetchRobotsTxt robotsTxt
    else JsVal.vobj [("disallow", JsVal.varr []), ("crawlDelay", JsVal.vnum 0)]
  let disallow := jsGet robotsRet "disallow"
  let cfg : CrawlCfg :=
    { rootScheme := startUrl.scheme, rootHost := startUrl.host,
      maxPages := jsOrNat opts.maxPages 100,
      maxDepth := jsOrNat opts.maxDepth 4,
      concurrency := jsOrNat opts.concurrency 5,
      disallowArg := disallow,
      scrapeOracle := scrapeO, fetchOracle := fetchO }
  let final := crawlRun cfg startUrl evs
  ⟨final, buildAggregated (jsOrNat opts.aggregateMaxLength 100000) final.pages ""⟩

theorem crawlStep_seen_le (cfg : CrawlCfg) (s : CrawlState) (ev : CrawlEv)
    (h : s.seen.length ≤ cfg.maxPages) :
    (crawlStep cfg s ev).seen.length ≤ cfg.maxPages := by
  cases ev with
  | dispatch =>
    show (dispatchStep cfg s).seen.length ≤ cfg.maxPages
    unfold dispatchStep
    split
    · next hcond =>
      obtain ⟨-, -, hlt⟩ := hcond
      cases hq : s.queue with
      | nil => exact h
      | cons ud rest =>
        obtain ⟨u, d⟩ := ud
        by_cases h1 : u ∈ s.seen
        · simpa [h1] using h
        · by_cases h2 : sameOrigin cfg u = false
          · simp [h1, h2]
            omega
          · by_cases h3 : isAllowedByRobots (.vstr u.pathname) cfg.disallowArg = false
            · simp [h1, h2, h3]
              omega
            · simp [h1, h2, h3]
              omega
    · exact h
  | scrapeDone u d =>
    show (scrapeStep cfg s u d).seen.length ≤ cfg.maxPages
    unfold scrapeStep
    split <;> exact h
  | fetchDone u d =>
    show (fetchStep cfg s u d).seen.length ≤ cfg.maxPages
    unfold fetchStep
    split
    · split
      · exact h
      · split <;> exact h
    · exact h

theorem crawlRun_seen_le (cfg : CrawlCfg) :
    ∀ (evs : List CrawlEv) (s : CrawlState),
      s.seen.length ≤ cfg.maxPages →
      (evs.foldl (crawlStep cfg) s).seen.length ≤ cfg.maxPages := by
  intro evs
  induction evs with
  | nil => intro s h; exact h
  | cons e es ih =>
    intro s h
    exact ih _ (crawlStep_seen_le cfg s e h)

/-- Claim C5: at every point of every crawl — i.e. for every prefix of
every event-loop schedule — the seen-set holds at most `maxPages`
URLs: worker segment 1 adds to the seen-set only under the synchronous
checks of `crawler.js:81` and `crawler.js:154`, both requiring
`seen.size < maxPages` at the moment of the add.  `maxPages` is the
effective cap `opts.maxPages || 100` of `crawler.js:61`. -/
theorem c5_seen_never_exceeds_cap (startUrl : UrlStr) (opts : CrawlOpts)
    (robotsTxt : Option (List String)) (scrapeO : UrlStr → ScrapeOut)
    (fetchO : UrlStr → Option (List Href)) (evs : List CrawlEv) :
    (crawlSite startUrl opts robotsTxt scrapeO fetchO evs).state.seen.length ≤
      jsOrNat opts.maxPages 100 :=
  crawlRun_seen_le _ evs (crawlInit startUrl) (Nat.zero_le _)

def pagesUrls (s : CrawlState) : List UrlStr := s.pages.map fun p => p.url

def pendingUrls (s : CrawlState) : List UrlStr := s.pending.map Prod.fst

/-- Dispatch invariant of the crawl loop: a page record is pushed at
most once per URL string.  Workers mark a URL seen synchronously
before any `await` (`crawler.js:85-86`), a worker is created only for
a URL that was not seen, and every worker's URL is in the seen-set, so
the URLs of pushed pages together with the URLs of workers that have
not yet pushed their page are pairwise distinct. -/
structure CrawlInv (s : CrawlState) : Prop where
  nodup : (pagesUrls s ++ pendingUrls s).Nodup
  pagesSeen : ∀ p ∈ s.pages, p.url ∈ s.seen
  pendSeen : ∀ e ∈ s.pending, e.1 ∈ s.seen

theorem pageOfScrape_url (u : UrlStr) (o : ScrapeOut) : (pageOfScrape u o).url = u := by
  cases o <;> rfl

theorem perm_cons_eraseOne (e : UrlStr × Nat) :
    ∀ l : List (UrlStr × Nat), e ∈ l → List.Perm l (e :: eraseOne l e) := by
  intro l
  induction l with
  | nil => intro h; cases h
  | cons x xs ih =>
    intro h
    by_cases hx : x = e
    · subst hx
      rw [eraseOne, if_pos rfl]
    · rw [eraseOne, if_neg hx]
      have hmem : e ∈ xs := by
        rcases List.mem_cons.mp h with h | h
        · exact absurd h.symm hx
        · exact h
      exact ((ih hmem).cons x).trans (List.Perm.swap e x (eraseOne xs e))

theorem mem_of_mem_eraseOne (a e : UrlStr × Nat) :
    ∀ l : List (UrlStr × Nat), a ∈ eraseOne l e → a ∈ l := by
  intro l
  induction l with
  | nil => intro h; cases h
  | cons x xs ih =>
    intro h
    by_cases hx : x = e
    · rw [eraseOne, if_pos hx] at h
      exact List.mem_cons_of_mem x h
    · rw [eraseOne, if_neg hx] at h
      rcases List.mem_cons.mp h with h | h
      · exact h ▸ List.mem_cons_self x xs
      · exact List.mem_cons_of_mem x (ih h)

theorem dispatchStep_inv (cfg : CrawlCfg) (s : CrawlState) (h : CrawlInv s) :
    CrawlInv (dispatchStep cfg s) := by
  unfold dispatchStep
  split
  · cases hq : s.queue with
    | nil => exact h
    | cons ud rest =>
      obtain ⟨u, d⟩ := ud
      dsimp only
      by_cases h1 : u ∈ s.seen
      · rw [if_pos h1]
        exact ⟨h.nodup, h.pagesSeen, h.pendSeen⟩
      · rw [if_neg h1]
        by_cases h2 : sameOrigin cfg u = false
        · rw [if_pos h2]
          exact ⟨h.nodup,
            fun p hp => List.mem_cons_of_mem u (h.pagesSeen p hp),
            fun e he => List.mem_cons_of_mem u (h.pendSeen e he)⟩
        · rw [if_neg h2]
          by_cases h3 : isAllowedByRobots (.vstr u.pathname) cfg.disallowArg = false
          · rw [if_pos h3]
            exact ⟨h.nodup,
              fun p hp => List.mem_cons_of_mem u (h.pagesSeen p hp),
              fun e he => List.mem_cons_of_mem u (h.pendSeen e he)⟩
          · rw [if_neg h3]
            refine ⟨?_, ?_, ?_⟩
            · have hnd : ((pagesUrls s ++ pendingUrls s) ++ [u]).Nodup := by
                rw [(List.perm_append_singleton u (pagesUrls s ++ pendingUrls s)).nodup_iff,
                  List.nodup_cons]
                refine ⟨?_, h.nodup⟩
                intro hu
                rcases List.mem_append.mp hu with hu | hu
                · rcases List.mem_map.mp hu with ⟨p, hp, hpu⟩
                  exact h1 (hpu ▸ h.pagesSeen p hp)
                · rcases List.mem_map.mp hu with ⟨e, he, heu⟩
                  exact h1 (heu ▸ h.pendSeen e he)
              show (s.pages.map (fun p => p.url) ++
                (s.pending ++ [(u, d)]).map Prod.fst).Nodup
              rw [List.map_append, ← List.append_assoc]
              simpa [pagesUrls, pendingUrls] using hnd
            · intro p hp
              exact List.mem_cons_of_mem u (h.pagesSeen p hp)
            · intro e he
              rcases List.mem_append.mp he with he | he
              · exact List.mem_cons_of_mem u (h.pendSeen e he)
              · rcases List.mem_singleton.mp he with rfl
                exact List.mem_cons_self u s.seen
  · exact h

theorem scrapeStep_inv (cfg : CrawlCfg) (s : CrawlState) (u : UrlStr) (d : Nat)
    (h : CrawlInv s) : CrawlInv (scrapeStep cfg s u d) := by
  unfold scrapeStep
  split
  · next hm =>
    refine ⟨?_, ?_, ?_⟩
    · have hperm : List.Perm (pendingUrls s)
          (u :: (eraseOne s.pending (u, d)).map Prod.fst) := by
        have hp := (perm_cons_eraseOne (u, d) s.pending hm).map Prod.fst
        simpa [pendingUrls] using hp
      have hall := List.Perm.append_left (pagesUrls s) hperm
      have heq : pagesUrls s ++ (u :: (eraseOne s.pending (u, d)).map Prod.fst) =
          (pagesUrls s ++ [u]) ++ (eraseOne s.pending (u, d)).map Prod.fst := by
        rw [List.append_assoc]
        rfl
      rw [heq] at hall
      have hnd := hall.nodup_iff.mp h.nodup
      show ((s.pages ++ [pageOfScrape u (cfg.scrapeOracle u)]).map (fun p => p.url) ++
        (eraseOne s.pending (u, d)).map Prod.fst).Nodup
      rw [List.map_append]
      simpa [pagesUrls, pageOfScrape_url] using hnd
    · intro p hp
      rcases List.mem_append.mp hp with hp | hp
      · exact h.pagesSeen p hp
      · rcases List.mem_singleton.mp hp with rfl
        rw [pageOfScrape_url]
        exact h.pendSeen (u, d) hm
    · intro e he
      exact h.pendSeen e (mem_of_mem_eraseOne e (u, d) s.pending he)
  · exact h

theorem fetchStep_inv (cfg : CrawlCfg) (s : CrawlState) (u : UrlStr) (d : Nat)
    (h : CrawlInv s) : CrawlInv (fetchStep cfg s u d) := by
  unfold fetchStep
  split
  · split
    · exact ⟨h.nodup, h.pagesSeen, h.pendSeen⟩
    · split
      · exact ⟨h.nodup, h.pagesSeen, h.pendSeen⟩
      · exact ⟨h.nodup, h.pagesSeen, h.pendSeen⟩
  · exact h

theorem crawlStep_inv (cfg : CrawlCfg) (s : CrawlState) (ev : CrawlEv)
    (h : CrawlInv s) : CrawlInv (crawlStep cfg s ev) := by
  cases ev with
  | dispatch => exact dispatchStep_inv cfg s h
  | scrapeDone u d => exact scrapeStep_inv cfg s u d h
  | fetchDone u d => exact fetchStep_inv cfg s u d h

theorem crawlRun_inv (cfg : CrawlCfg) (startUrl : UrlStr) :
    ∀ (evs : List CrawlEv), CrawlInv (crawlRun cfg startUrl evs) := by
  have hbase : CrawlInv (crawlInit startUrl) := by
    refine ⟨?_, ?_, ?_⟩ <;> simp [crawlInit, pagesUrls, pendingUrls]
  have hfold : ∀ (evs : List CrawlEv) (s : CrawlState), CrawlInv s →
      CrawlInv (evs.foldl (crawlStep cfg) s) := by
    intro evs
    induction evs with
    | nil => intro s hs; exact hs
    | cons e es ih => intro s hs; exact ih _ (crawlStep_inv cfg s e hs)
  intro evs
  exact hfold evs _ hbase

/-- Claim C4 (amended): every crawl processes each exact URL string at
most once — the returned pages list never holds two records with the
same URL string.  The canonical-level statement fails (see the
counterexample): the start URL is enqueued as given, without
normalization, so a non-canonical start URL can be crawled alongside
its canonical form. -/
theorem c4_amended_exact_url_dedup (startUrl : UrlStr) (opts : CrawlOpts)
    (robotsTxt : Option (List String)) (scrapeO : UrlStr → ScrapeOut)
    (fetchO : UrlStr → Option (List Href)) (evs : List CrawlEv) :
    ((crawlSite startUrl opts robotsTxt scrapeO fetchO evs).state.pages.map
      fun p => p.url).Nodup :=
  ((crawlRun_inv _ startUrl evs).nodup).of_append_left

def c4Start : UrlStr := ⟨"https", "x.com", "/a/", ""⟩

def c4A : UrlStr := ⟨"https", "x.com", "/a", ""⟩

def c4Opts : CrawlOpts := ⟨none, none, none, none, none⟩

def c4Scrape : UrlStr → ScrapeOut := fun _ => .ok "T" "" "" "body text"

def c4Fetch : UrlStr → Option (List Href) := fun u =>
  if u = c4Start then some [.rel "/a/" ""] else some []

def c4Evs : List CrawlEv :=
  [.dispatch, .scrapeDone c4Start 0, .fetchDone c4Start 0,
   .dispatch, .scrapeDone c4A 1, .fetchDone c4A 1]

/-- Claim C4 counterexample: starting the crawl at the non-canonical
URL `https://x.com/a/` on a page that links to `/a/` produces two page
records — one for `https://x.com/a/` (the start URL, enqueued
unnormalized) and one for `https://x.com/a` (the normalized link) —
whose URLs share the canonical form `https://x.com/a`. -/
theorem c4_counterexample :
    ¬ (((crawlSite c4Start c4Opts none c4Scrape c4Fetch c4Evs).state.pages.map
      fun p => canonical p.url).Nodup) := by decide

theorem buildAggregated_len (limit : Nat) :
    ∀ (ps : List Page) (acc : String) (M : Nat),
      acc.length ≤ limit + M → (∀ p ∈ ps, (pageChunk p).length ≤ M) →
      (buildAggregated limit ps acc).length ≤ limit + M := by
  intro ps
  induction ps with
  | nil => intro acc M h _; exact h
  | cons p ps2 ih =>
    intro acc M h hps
    rw [buildAggregated]
    split
    · exact h
    · next hlt =>
      refine ih _ M ?_ (fun q hq => hps q (List.mem_cons_of_mem p hq))
      rw [String.length_append]
      have h1 : acc.length < limit := Nat.lt_of_not_le hlt
      have h2 : (pageChunk p).length ≤ M := hps p (List.mem_cons_self p ps2)
      omega

def maxChunkLen (pages : List Page) : Nat :=
  pages.foldr (fun p m => max (pageChunk p).length m) 0

theorem le_maxChunkLen (p : Page) :
    ∀ pages : List Page, p ∈ pages → (pageChunk p).length ≤ maxChunkLen pages := by
  intro pages
  induction pages with
  | nil => intro h; cases h
  | cons q qs ih =>
    intro h
    rcases List.mem_cons.mp h with rfl | h
    · exact le_max_left _ _
    · exact le_trans (ih h) (le_max_right _ _)

/-- Claim C2 (amended): the aggregation loop checks the running length
only before appending a whole chunk (`crawler.js:174-175`), so the
aggregated string may exceed the limit by up to one chunk: its length
is at most the effective limit (`aggregateMaxLength || 100000`) plus
the longest per-page chunk.  The claim's "never exceeds L" fails — see
the counterexample. -/
theorem c2_amended_aggregate_bound (startUrl : UrlStr) (opts : CrawlOpts)
    (robotsTxt : Option (List String)) (scrapeO : UrlStr → ScrapeOut)
    (fetchO : UrlStr → Option (List Href)) (evs : List CrawlEv) :
    (crawlSite startUrl opts robotsTxt scrapeO fetchO evs).aggregated.length ≤
      jsOrNat opts.aggregateMaxLength 100000 +
        maxChunkLen (crawlSite startUrl opts robotsTxt scrapeO fetchO evs).state.pages :=
  buildAggregated_len _ _ "" _ (Nat.zero_le _)
    (fun p hp => le_maxChunkLen p _ hp)

def c2Start : UrlStr := ⟨"https", "x.com", "/", ""⟩

def c2Opts : CrawlOpts := ⟨none, none, none, some 5, none⟩

def c2Scrape : UrlStr → ScrapeOut := fun _ => .ok "" "" "" "hello world"

def c2Fetch : UrlStr → Option (List Href) := fun _ => some []

def c2Evs : List CrawlEv := [.dispatch, .scrapeDone c2Start 0, .fetchDone c2Start 0]

/-- Claim C2 counterexample: with `aggregateMaxLength = 5` a single
page whose chunk is 31 characters long is appended whole (the length
check at `crawler.js:174` passes while the total is still 0), so the
aggregated string's length exceeds the limit. -/
theorem c2_counterexample :
    ¬ ((crawlSite c2Start c2Opts none c2Scrape c2Fetch c2Evs).aggregated.length ≤ 5) := by
  decide

/-- Claim C3 (amended): when the Page Extractor fails for a pending
URL, the crawl continues: a record with the URL and empty
title/h1/description/text — carrying no error information, since the
object of `crawler.js:109-115` has no `error` field — is appended,
and the worker still proceeds to the independent link-extraction
fetch (`crawler.js:121`), so links found there are still enqueued. -/
theorem c3_amended_error_page_empty_record (cfg : CrawlCfg) (s : CrawlState)
    (u : UrlStr) (d : Nat) (m : String)
    (hp : (u, d) ∈ s.pending) (he : cfg.scrapeOracle u = .err m) :
    crawlStep cfg s (.scrapeDone u d) =
      { s with pending := eraseOne s.pending (u, d),
               pages := s.pages ++ [⟨u, "", "", "", ""⟩],
               fetching := s.fetching ++ [(u, d)] } := by
  show scrapeStep cfg s u d = _
  unfold scrapeStep
  rw [if_pos hp, he]
  rfl

def c3wUrl : UrlStr := ⟨"https", "x.com", "/", ""⟩

def c3wCfg : CrawlCfg :=
  { rootScheme := "https", rootHost := "x.com", maxPages := 100, maxDepth := 4,
    concurrency := 5, disallowArg := .vUndefined,
    scrapeOracle := fun _ => .err "timeout", fetchOracle := fun _ => some [] }

def c3wState : CrawlState := ⟨[], [c3wUrl], [], [(c3wUrl, 0)], []⟩

theorem c3_witness :
    crawlStep c3wCfg c3wState (.scrapeDone c3wUrl 0) =
      { c3wState with pending := eraseOne c3wState.pending (c3wUrl, 0),
                      pages := c3wState.pages ++ [⟨c3wUrl, "", "", "", ""⟩],
                      fetching := c3wState.fetching ++ [(c3wUrl, 0)] } :=
  c3_amended_error_page_empty_record c3wCfg c3wState c3wUrl 0 "timeout"
    (by decide) (by rfl)

def c3Start : UrlStr := ⟨"https", "x.com", "/", ""⟩

def c3B : UrlStr := ⟨"https", "x.com", "/b", ""⟩

def c3Opts : CrawlOpts := ⟨none, none, none, none, none⟩

def c3Scrape : UrlStr → ScrapeOut := fun u =>
  if u = c3Start then .err "network timeout" else .ok "Btitle" "" "" "btext"

def c3Fetch : UrlStr → Option (List Href) := fun u =>
  if u = c3Start then some [.rel "/b" ""] else some []

def c3Evs : List CrawlEv :=
  [.dispatch, .scrapeDone c3Start 0, .fetchDone c3Start 0,
   .dispatch, .scrapeDone c3B 1, .fetchDone c3B 1]

/-- Claim C3 counterexample: the start page's extraction fails, yet
its recorded entry is `⟨url, "", "", "", ""⟩` — all-empty fields and
no error information (the record type of `crawler.js:109-115` has no
`error` field) — and the page is NOT skipped for link extraction: the
link `/b`, discoverable only from the errored page, is enqueued,
crawled, and appears as the second page record. -/
theorem c3_counterexample :
    (crawlSite c3Start c3Opts none c3Scrape c3Fetch c3Evs).state.pages =
      [⟨c3Start, "", "", "", ""⟩, ⟨c3B, "Btitle", "", "", "btext"⟩] := by decide

def c1Start : UrlStr := ⟨"https", "x.com", "/", ""⟩

def c1Admin : UrlStr := ⟨"https", "x.com", "/admin", ""⟩

def c1Opts : CrawlOpts := ⟨none, none, none, none, some true⟩

def c1Scrape : UrlStr → ScrapeOut := fun _ => .ok "Title" "H" "" "body text"

def c1Fetch : UrlStr → Option (List Href) := fun u =>
  if u = c1Start then some [.rel "/admin" ""] else some []

def c1Evs : List CrawlEv :=
  [.dispatch, .scrapeDone c1Start 0, .fetchDone c1Start 0,
   .dispatch, .scrapeDone c1Admin 1, .fetchDone c1Admin 1]

/-- Claim C1 (code divergence): robots disallow rules are never
enforced.  `crawler.js:70` destructures `{ disallow, crawlDelay }`
from `fetchRobotsTxt`, whose result has fields `robots` and
`crawlDelay`, so `disallow` is `undefined`; `crawler.js:92` then calls
`isAllowedByRobots(u.pathname, disallow)` with the pathname (a string)
in the parser-object position, so the `.isAllowed` call throws and the
catch returns `true`.  First conjunct: the check as called always
allows, for every path and every second argument.  Second: the
destructured `disallow` really is `undefined`.  Third: a crawl with
`respectRobots = true` on a site whose robots rules disallow `/admin`
still scrapes `/admin` and records a page for it. -/
theorem c1_robots_disallow_not_enforced :
    (∀ (path : String) (v : JsVal), isAllowedByRobots (.vstr path) v = true) ∧
    jsGet (fetchRobotsTxt (some ["/admin"])) "disallow" = JsVal.vUndefined ∧
    (crawlSite c1Start c1Opts (some ["/admin"]) c1Scrape c1Fetch c1Evs).state.pages.map
      (fun p => p.url) = [c1Start, c1Admin] := by
  refine ⟨?_, rfl, ?_⟩
  · intro path v
    by_cases hp : path = ""
    · simp [isAllowedByRobots, jsTruthyV, hp]
    · simp [isAllowedByRobots, jsTruthyV, hp, callIsAllowed]
  · decide
